import Mathlib

/-!
Shallow embedding of the data-access layer of the Client Query Management
System (src/database.py), together with proofs of the specified properties
of the query lifecycle: id assignment, authentication, closing, listing,
image retrieval and CSV bulk import.

The SQLite `queries` table is modelled as a list of rows in insertion
(rowid) order.  Each operation of database.py that opens a connection,
executes one statement and commits is modelled as a pure function on that
list; `datetime.now()` is passed in as an explicit argument, and fallible
operations return `Except`.
-/

namespace CQMS

/-- Bytewise lexicographic comparison of character lists.  Models SQLite's
BINARY collation on TEXT values: comparison of UTF-8 bytes coincides with
comparison of code points. -/
def lexLe : List Char → List Char → Bool
  | [], _ => true
  | _ :: _, [] => false
  | a :: as, b :: bs => if a < b then true else if b < a then false else lexLe as bs

/-- String comparison used by `ORDER BY query_id DESC` in get_next_query_id. -/
def strLe (a b : String) : Bool := lexLe a.data b.data

/-- Maximum of two strings under the SQLite BINARY collation. -/
def strMax (a b : String) : String := if strLe a b then b else a

/-- Model of `SELECT query_id FROM queries ORDER BY query_id DESC LIMIT 1`
over the list of stored ids: the greatest string under the BINARY collation,
or `none` when the table is empty. -/
def lexMax? : List String → Option String
  | [] => none
  | x :: xs => some (xs.foldl strMax x)

/-- Value of a list of ASCII digit characters, most significant first. -/
def digitsToNat (cs : List Char) : Nat := cs.foldl (fun acc c => 10 * acc + (c.toNat - 48)) 0

/-- Worker of the Python int model, on the character list. -/
def pyIntParseAux : List Char → Option Int
  | [] => none
  | c :: rest =>
    if c = '-' then
      if rest ≠ [] ∧ rest.all Char.isDigit then some (-(digitsToNat rest : Int)) else none
    else if c = '+' then
      if rest ≠ [] ∧ rest.all Char.isDigit then some ((digitsToNat rest : Int)) else none
    else if (c :: rest).all Char.isDigit then some ((digitsToNat (c :: rest) : Int))
    else none

/-- Model of Python `int(s)` on the strings arising here: an optional sign
followed by one or more ASCII digits; anything else raises ValueError,
modelled as `none`. -/
def pyIntParse (s : String) : Option Int := pyIntParseAux s.data

/-- Little-endian base-10 digits with explicit recursion fuel (one digit is
consumed per step, so fuel `n` always suffices for the number `n`). -/
def toDigitsLEAux : Nat → Nat → List Nat
  | _, 0 => []
  | n, f + 1 => if n = 0 then [] else n % 10 :: toDigitsLEAux (n / 10) f

/-- Little-endian base-10 digits of a natural number (empty for 0). -/
def toDigitsLE (n : Nat) : List Nat := toDigitsLEAux n n

/-- Value of a little-endian digit list. -/
def ofDigitsLE : List Nat → Nat
  | [] => 0
  | d :: ds => d + 10 * ofDigitsLE ds

/-- ASCII character of a decimal digit. -/
def digitChar (d : Nat) : Char := Char.ofNat (48 + d)

/-- Decimal representation of a natural number, most significant digit first. -/
def natStr (n : Nat) : String := if n = 0 then "0" else ⟨((toDigitsLE n).reverse).map digitChar⟩

/-- Left padding with '0' to width `w`; models the zero fill of Python's
format specification. -/
def pad0 (w : Nat) (s : String) : String := ⟨List.replicate (w - s.data.length) '0' ++ s.data⟩

/-- Model of Python `f"{n:04d}"`: optional sign then decimal digits,
zero-filled to total width 4, the sign counting toward the width. -/
def format04 (n : Int) : String :=
  if n < 0 then "-" ++ pad0 3 (natStr n.natAbs) else pad0 4 (natStr n.natAbs)

/-- Model of the Python slice `s[1:]`. -/
def pyTail (s : String) : String := ⟨s.data.drop 1⟩

/-- ASCII lowering of one character. -/
def asciiLower (c : Char) : Char :=
  if 'A' ≤ c ∧ c ≤ 'Z' then Char.ofNat (c.toNat + 32) else c

/-- Model of Python `str.lower()` on the ASCII strings used by the status
filter. -/
def pyLower (s : String) : String := ⟨s.data.map asciiLower⟩

/-- One row of the `queries` table (schema of create_tables).  Every column
except the primary key is nullable; the blob column holds raw bytes. -/
structure QueryRow where
  query_id : String
  mail_id : Option String
  mobile_number : Option String
  query_heading : Option String
  query_description : Option String
  status : Option String
  query_created_time : Option String
  query_closed_time : Option String
  image : Option (List UInt8)
deriving DecidableEq

/-- The `queries` table, rows in insertion (rowid) order. -/
abbrev Store := List QueryRow

/-- The ids currently present in the table. -/
def queryIds (s : Store) : List String := s.map (·.query_id)

/-- Errors raised by the data layer: sqlite3.IntegrityError on a duplicate
primary key, and FileNotFoundError from import_csv. -/
inductive DbError
  | integrityError
  | fileNotFoundError
deriving DecidableEq

/-- Model of authenticate_by_role_and_username: a static two-entry allowlist
keyed by role, compared with Python string equality; the users table is never
consulted. -/
def authenticate_by_role_and_username (role username password : String) : Bool :=
  if role = "Support" then username == "support" && password == "support123"
  else if role = "Client" then username == "client" && password == "client123"
  else false

/-- Rendering of the new id from the parsed suffix of the last one: the
`try` block of get_next_query_id sets `new_num = num + 1`, the `except`
falls back to 1, and the result is `f"Q{new_num:04d}"`. -/
def incSuffix : Option Int → String
  | some num => "Q" ++ format04 (num + 1)
  | none => "Q" ++ format04 1

/-- Branch of get_next_query_id on the fetched row: no row also yields
`new_num = 1`; otherwise Python `int` is applied to the slice
`last_id[1:]`. -/
def nextFromLast : Option String → String
  | none => "Q" ++ format04 1
  | some last_id => incSuffix (pyIntParse (pyTail last_id))

/-- Model of get_next_query_id: reads the greatest query_id under the BINARY
collation, parses and increments its numeric suffix, and renders the new
id. -/
def get_next_query_id (s : Store) : String := nextFromLast (lexMax? (queryIds s))

/-- Model of insert_query: assigns the id via get_next_query_id and appends a
row with status 'Opened' and NULL closed time; `datetime.now()` is the
explicit `created_time` argument.  When the computed id already exists,
sqlite raises IntegrityError on the plain INSERT and nothing is written. -/
def insert_query (mail_id mobile_number query_heading query_description : String)
    (image_bytes : Option (List UInt8)) (created_time : String) (s : Store) :
    Except DbError (String × Store) :=
  let query_id := get_next_query_id s
  if query_id ∈ queryIds s then .error .integrityError
  else .ok (query_id, s ++ [{
    query_id := query_id, mail_id := some mail_id,
    mobile_number := some mobile_number, query_heading := some query_heading,
    query_description := some query_description, status := some "Opened",
    query_created_time := some created_time, query_closed_time := none,
    image := image_bytes }])

/-- Model of close_query: the UPDATE sets status 'Closed' and the closed time
on every row matching the id, unconditionally; `datetime.now()` is the
explicit `closed_time` argument. -/
def close_query (query_id : String) (closed_time : String) (s : Store) : Store :=
  s.map fun r =>
    if r.query_id = query_id then
      { r with status := some "Closed", query_closed_time := some closed_time }
    else r

/-- One row of the result set of fetch_queries: the eight selected columns,
without the image blob. -/
structure FetchedRow where
  query_id : String
  mail_id : Option String
  mobile_number : Option String
  query_heading : Option String
  query_description : Option String
  status : Option String
  query_created_time : Option String
  query_closed_time : Option String
deriving DecidableEq

/-- Projection of a stored row onto the selected columns. -/
def toFetched (r : QueryRow) : FetchedRow :=
  { query_id := r.query_id, mail_id := r.mail_id, mobile_number := r.mobile_number,
    query_heading := r.query_heading, query_description := r.query_description,
    status := r.status, query_created_time := r.query_created_time,
    query_closed_time := r.query_closed_time }

/-- Ordering on nullable TEXT values: NULL sorts before every string in
SQLite, so DESC puts NULLs last. -/
def optStrLe (a b : Option String) : Bool :=
  match a, b with
  | none, _ => true
  | some _, none => false
  | some x, some y => strLe x y

/-- Row `a` may precede row `b` under `ORDER BY query_created_time DESC`
exactly when its created time is greater or equal. -/
def createdDescLe (a b : FetchedRow) : Bool :=
  optStrLe b.query_created_time a.query_created_time

/-- Insertion step of the modelled sort. -/
def insertByCreatedDesc (r : FetchedRow) : List FetchedRow → List FetchedRow
  | [] => [r]
  | x :: xs => if createdDescLe r x then r :: x :: xs else x :: insertByCreatedDesc r xs

/-- The engine's `ORDER BY query_created_time DESC`, modelled as an insertion
sort (SQLite promises the ordering, not a particular tie order). -/
def sortByCreatedDesc (l : List FetchedRow) : List FetchedRow :=
  l.foldr insertByCreatedDesc []

/-- Model of fetch_queries: no WHERE clause when the filter is absent or its
Python `lower()` equals 'all', otherwise `WHERE status = ?` (case-sensitive
under the BINARY collation); the result is ordered by created time
descending. -/
def fetch_queries (status : Option String) (s : Store) : List FetchedRow :=
  let selected :=
    match status with
    | none => s
    | some st => if pyLower st = "all" then s else s.filter (fun r => r.status == some st)
  sortByCreatedDesc (selected.map toFetched)

/-- Model of get_query_image: the first row matching the id, then
`row[0] if row and row[0] is not None else None`. -/
def get_query_image (query_id : String) (s : Store) : Option (List UInt8) :=
  match s.find? (fun r => r.query_id == query_id) with
  | none => none
  | some r => r.image

/-- One record of the external CSV after pandas renames the columns to the
schema names; the image column is absent.  A missing cell (pandas NaN, bound
as NULL by sqlite) is modelled as `none`. -/
structure CsvRow where
  query_id : String
  mail_id : Option String
  mobile_number : Option String
  query_heading : Option String
  query_description : Option String
  status : Option String
  query_created_time : Option String
  query_closed_time : Option String
deriving DecidableEq

/-- The stored row produced for a CSV record: its eight columns plus a NULL
image. -/
def csvToRow (r : CsvRow) : QueryRow :=
  { query_id := r.query_id, mail_id := r.mail_id, mobile_number := r.mobile_number,
    query_heading := r.query_heading, query_description := r.query_description,
    status := r.status, query_created_time := r.query_created_time,
    query_closed_time := r.query_closed_time, image := none }

/-- The row loop of import_csv: `INSERT OR IGNORE` appends each record unless
a row with the same query_id already exists. -/
def importRows : List CsvRow → Store → Store
  | [], s => s
  | r :: rs, s =>
    if r.query_id ∈ queryIds s then importRows rs s
    else importRows rs (s ++ [csvToRow r])

/-- Model of import_csv: raises FileNotFoundError when the file is missing,
before touching the database; otherwise inserts every record with OR
IGNORE. -/
def import_csv (csvFileExists : Bool) (records : List CsvRow) (s : Store) :
    Except DbError Store :=
  if csvFileExists then .ok (importRows records s) else .error .fileNotFoundError

/-- Arguments of one insert_query call, with its `datetime.now()` value. -/
structure InsertReq where
  mail_id : String
  mobile_number : String
  query_heading : String
  query_description : String
  image_bytes : Option (List UInt8)
  now : String

/-- A sequence of insert_query calls: each successful call contributes its
returned id and updates the store; a call that raises returns no id and
writes nothing. -/
def runInserts : List InsertReq → Store → List String × Store
  | [], s => ([], s)
  | q :: qs, s =>
    match insert_query q.mail_id q.mobile_number q.query_heading
        q.query_description q.image_bytes q.now s with
    | .error _ => runInserts qs s
    | .ok (qid, s₂) =>
      let rest := runInserts qs s₂
      (qid :: rest.1, rest.2)

/-- The integer parsed after the leading 'Q' of a query id (0 when it does
not parse). -/
def numericSuffix (query_id : String) : Int := (pyIntParse (pyTail query_id)).getD 0

/-- Invariant of the store (spec section 3): the closed time is non-null
exactly on rows whose status is Closed. -/
abbrev ClosedTimeInv (s : Store) : Prop :=
  ∀ r ∈ s, (r.query_closed_time.isSome ↔ r.status = some "Closed")

/-- A concrete opened row, used to exercise the theorems on closed data. -/
def sampleOpened : QueryRow :=
  { query_id := "Q0001", mail_id := some "a@x.com", mobile_number := some "555",
    query_heading := some "H", query_description := some "D",
    status := some "Opened", query_created_time := some "2024-01-01 10:00:00",
    query_closed_time := none, image := none }

/-- A concrete row that has already been closed. -/
def sampleClosed : QueryRow :=
  { sampleOpened with
    query_id := "Q0002", status := some "Closed",
    query_closed_time := some "2024-01-02 09:00:00" }

/-- A concrete CSV record whose status says Opened while its closure date is
set; nothing in import_csv rejects it. -/
def badCsvRow : CsvRow :=
  { query_id := "Q0100", mail_id := some "b@x.com", mobile_number := some "777",
    query_heading := some "H2", query_description := some "D2",
    status := some "Opened", query_created_time := some "2024-02-01 08:00:00",
    query_closed_time := some "2024-02-02 08:00:00" }

/-- A concrete CSV record satisfying the closed-time invariant. -/
def goodCsvRow : CsvRow :=
  { badCsvRow with
    query_id := "Q0101", query_closed_time := none }

/-!  Arithmetic of the decimal rendering and of the Python int parse. -/

theorem toDigitsLEAux_lt_ten (f : Nat) : ∀ n, ∀ d ∈ toDigitsLEAux n f, d < 10 := by
  induction f with
  | zero => intro n d hd; simp [toDigitsLEAux] at hd
  | succ f ih =>
    intro n d hd
    by_cases h : n = 0
    · simp [toDigitsLEAux, h] at hd
    · simp only [toDigitsLEAux, if_neg h, List.mem_cons] at hd
      rcases hd with h1 | h2
      · subst h1; exact Nat.mod_lt _ (by decide)
      · exact ih _ _ h2

theorem ofDigitsLE_toDigitsLEAux (f : Nat) : ∀ n, n ≤ f → ofDigitsLE (toDigitsLEAux n f) = n := by
  induction f with
  | zero =>
    intro n hn
    have h0 : n = 0 := Nat.le_zero.mp hn
    subst h0; rfl
  | succ f ih =>
    intro n hn
    by_cases h : n = 0
    · subst h; simp [toDigitsLEAux, ofDigitsLE]
    · simp only [toDigitsLEAux, if_neg h, ofDigitsLE]
      have hdiv : n / 10 ≤ f := by
        have hlt : n / 10 < n := Nat.div_lt_self (Nat.pos_of_ne_zero h) (by decide)
        omega
      rw [ih _ hdiv]
      exact Nat.mod_add_div n 10

theorem digitChar_toNat : ∀ d : Nat, d < 10 → (digitChar d).toNat = 48 + d := by decide

theorem digitChar_isDigit : ∀ d : Nat, d < 10 → (digitChar d).isDigit = true := by decide

theorem foldl_digitChars (ds : List Nat) (h : ∀ d ∈ ds, d < 10) (acc : Nat) :
    (((ds.reverse).map digitChar).foldl (fun a c => 10 * a + (c.toNat - 48)) acc)
      = acc * 10 ^ ds.length + ofDigitsLE ds := by
  induction ds generalizing acc with
  | nil => simp [ofDigitsLE]
  | cons d ds ih =>
    have hd : d < 10 := h d (by simp)
    have hds : ∀ x ∈ ds, x < 10 := fun x hx => h x (by simp [hx])
    simp only [List.reverse_cons, List.map_append, List.map_cons, List.map_nil,
      List.foldl_append, List.foldl_cons, List.foldl_nil]
    rw [ih hds acc, digitChar_toNat d hd, ofDigitsLE]
    have : 48 + d - 48 = d := by omega
    rw [this]
    simp only [List.length_cons, pow_succ]
    ring

theorem digitsToNat_natStr (n : Nat) : digitsToNat (natStr n).data = n := by
  by_cases h : n = 0
  · subst h; decide
  · simp only [natStr, if_neg h, digitsToNat, toDigitsLE]
    rw [foldl_digitChars _ (toDigitsLEAux_lt_ten n n) 0]
    simp [ofDigitsLE_toDigitsLEAux n n le_rfl]

theorem natStr_all_digits (n : Nat) : (natStr n).data.all Char.isDigit = true := by
  by_cases h : n = 0
  · subst h; decide
  · simp only [natStr, if_neg h, List.all_eq_true]
    intro c hc
    simp only [List.mem_map, List.mem_reverse] at hc
    obtain ⟨d, hd, rfl⟩ := hc
    exact digitChar_isDigit d (toDigitsLEAux_lt_ten n n d hd)

theorem natStr_ne_nil (n : Nat) : (natStr n).data ≠ [] := by
  by_cases h : n = 0
  · subst h; decide
  · simp only [natStr, if_neg h]
    intro hcontra
    simp only [List.map_eq_nil_iff, List.reverse_eq_nil_iff] at hcontra
    obtain ⟨f, rfl⟩ := Nat.exists_eq_succ_of_ne_zero h
    simp [toDigitsLE, toDigitsLEAux] at hcontra

theorem foldl_replicate_zero (k : Nat) :
    (List.replicate k '0').foldl (fun a c => 10 * a + (c.toNat - 48)) 0 = 0 := by
  induction k with
  | zero => rfl
  | succ k ih => simpa [List.replicate_succ] using ih

theorem digitsToNat_pad0 (w : Nat) (s : String) :
    digitsToNat (pad0 w s).data = digitsToNat s.data := by
  simp only [pad0, digitsToNat, List.foldl_append, foldl_replicate_zero]

theorem pad0_all_digits (w : Nat) (s : String) (h : s.data.all Char.isDigit = true) :
    (pad0 w s).data.all Char.isDigit = true := by
  simp only [pad0, List.all_append, h, Bool.and_true, List.all_eq_true]
  intro c hc
  rw [List.eq_of_mem_replicate hc]
  decide

theorem pad0_ne_nil (w : Nat) (s : String) (h : s.data ≠ []) : (pad0 w s).data ≠ [] := by
  simp only [pad0]
  intro hcontra
  rcases List.append_eq_nil.mp hcontra with ⟨-, h2⟩
  exact h h2

theorem isDigit_ne_sign : ∀ c : Char, c.isDigit = true → c ≠ '-' ∧ c ≠ '+' := by
  intro c h
  constructor <;> rintro rfl <;> simp [Char.isDigit] at h

theorem pyIntParseAux_neg (rest : List Char) (hne : rest ≠ [])
    (hall : rest.all Char.isDigit = true) :
    pyIntParseAux ('-' :: rest) = some (-(digitsToNat rest : Int)) := by
  simp [pyIntParseAux, hne, hall]

theorem pyIntParseAux_digits (c : Char) (rest : List Char)
    (hall : (c :: rest).all Char.isDigit = true) :
    pyIntParseAux (c :: rest) = some ((digitsToNat (c :: rest) : Int)) := by
  have hcd : c.isDigit = true := by
    have := List.all_eq_true.mp hall c (by simp)
    simpa using this
  obtain ⟨hc1, hc2⟩ := isDigit_ne_sign c hcd
  simp [pyIntParseAux, hc1, hc2, hall]

theorem pyIntParse_format04 (n : Int) : pyIntParse (format04 n) = some n := by
  by_cases hn : n < 0
  · have hne : (pad0 3 (natStr n.natAbs)).data ≠ [] := pad0_ne_nil _ _ (natStr_ne_nil _)
    have hall : (pad0 3 (natStr n.natAbs)).data.all Char.isDigit = true :=
      pad0_all_digits _ _ (natStr_all_digits _)
    have hdata : (format04 n).data = '-' :: (pad0 3 (natStr n.natAbs)).data := by
      simp [format04, if_pos hn, String.data_append]
    rw [pyIntParse, hdata, pyIntParseAux_neg _ hne hall]
    rw [digitsToNat_pad0, digitsToNat_natStr]
    congr 1
    omega
  · have hne : (pad0 4 (natStr n.natAbs)).data ≠ [] := pad0_ne_nil _ _ (natStr_ne_nil _)
    have hall : (pad0 4 (natStr n.natAbs)).data.all Char.isDigit = true :=
      pad0_all_digits _ _ (natStr_all_digits _)
    have hdata : (format04 n).data = (pad0 4 (natStr n.natAbs)).data := by
      simp [format04, if_neg hn]
    obtain ⟨c, rest, hcr⟩ : ∃ c rest, (pad0 4 (natStr n.natAbs)).data = c :: rest := by
      cases h : (pad0 4 (natStr n.natAbs)).data with
      | nil => exact absurd h hne
      | cons c rest => exact ⟨c, rest, rfl⟩
    rw [hcr] at hall
    rw [pyIntParse, hdata, hcr, pyIntParseAux_digits c rest hall]
    rw [← hcr, digitsToNat_pad0, digitsToNat_natStr]
    congr 1
    omega

theorem pyTail_Qappend (t : String) : pyTail ("Q" ++ t) = t := by
  unfold pyTail
  rw [String.data_append]
  show (⟨t.data⟩ : String) = t
  cases t
  rfl

theorem pyIntParse_Qformat04 (n : Int) : pyIntParse (pyTail ("Q" ++ format04 n)) = some n := by
  rw [pyTail_Qappend, pyIntParse_format04]

theorem numericSuffix_Qformat04 (n : Int) : numericSuffix ("Q" ++ format04 n) = n := by
  simp [numericSuffix, pyIntParse_Qformat04]

/-!  The SQLite BINARY collation is a linear order. -/

theorem lexLe_refl (as : List Char) : lexLe as as = true := by
  induction as with
  | nil => rfl
  | cons a as ih => simp [lexLe, lt_irrefl, ih]

theorem lexLe_total (as bs : List Char) : lexLe as bs = true ∨ lexLe bs as = true := by
  induction as generalizing bs with
  | nil => left; rfl
  | cons a as ih =>
    cases bs with
    | nil => right; rfl
    | cons b bs =>
      rcases lt_trichotomy a b with h | h | h
      · left; simp [lexLe, h]
      · subst h
        rcases ih bs with h1 | h1
        · left; simp [lexLe, lt_irrefl, h1]
        · right; simp [lexLe, lt_irrefl, h1]
      · right; simp [lexLe, h]

theorem lexLe_trans (as bs cs : List Char) (h1 : lexLe as bs = true)
    (h2 : lexLe bs cs = true) : lexLe as cs = true := by
  induction as generalizing bs cs with
  | nil => rfl
  | cons a as ih =>
    cases bs with
    | nil => simp [lexLe] at h1
    | cons b bs =>
      cases cs with
      | nil => simp [lexLe] at h2
      | cons c cs =>
        by_cases hab : a < b
        · by_cases hbc : b < c
          · simp [lexLe, lt_trans hab hbc]
          · by_cases hcb : c < b
            · simp [lexLe, hbc, hcb] at h2
            · have hbc' : b = c := le_antisymm (not_lt.mp hcb) (not_lt.mp hbc)
              subst hbc'
              simp [lexLe, hab]
        · by_cases hba : b < a
          · simp [lexLe, hab, hba] at h1
          · have hab' : a = b := le_antisymm (not_lt.mp hba) (not_lt.mp hab)
            subst hab'
            simp only [lexLe, if_neg (lt_irrefl a)] at h1
            by_cases hac : a < c
            · simp [lexLe, hac]
            · by_cases hca : c < a
              · simp [lexLe, hac, hca] at h2
              · simp only [lexLe, if_neg hac, if_neg hca]
                simp only [lexLe, if_neg hac, if_neg hca] at h2
                exact ih bs cs h1 h2

theorem lexLe_antisymm (as bs : List Char) (h1 : lexLe as bs = true)
    (h2 : lexLe bs as = true) : as = bs := by
  induction as generalizing bs with
  | nil =>
    cases bs with
    | nil => rfl
    | cons b bs => simp [lexLe] at h2
  | cons a as ih =>
    cases bs with
    | nil => simp [lexLe] at h1
    | cons b bs =>
      by_cases hab : a < b
      · simp [lexLe, hab, asymm hab] at h2
      · by_cases hba : b < a
        · simp [lexLe, hab, hba] at h1
        · have hab' : a = b := le_antisymm (not_lt.mp hba) (not_lt.mp hab)
          subst hab'
          simp only [lexLe, if_neg (lt_irrefl a)] at h1 h2
          rw [ih bs h1 h2]

theorem strLe_refl (a : String) : strLe a a = true := lexLe_refl a.data

theorem strLe_total (a b : String) : strLe a b = true ∨ strLe b a = true :=
  lexLe_total a.data b.data

theorem strLe_trans {a b c : String} (h1 : strLe a b = true) (h2 : strLe b c = true) :
    strLe a c = true := lexLe_trans a.data b.data c.data h1 h2

theorem strLe_antisymm {a b : String} (h1 : strLe a b = true) (h2 : strLe b a = true) :
    a = b := by
  have hd : a.data = b.data := lexLe_antisymm a.data b.data h1 h2
  cases a with
  | mk d1 =>
    cases b with
    | mk d2 => exact congrArg String.mk hd

/-!  Properties of the greatest stored id. -/

theorem strMax_cases (a b : String) : strMax a b = a ∨ strMax a b = b := by
  unfold strMax
  by_cases h : strLe a b = true <;> simp [h]

theorem le_strMax_left (a b : String) : strLe a (strMax a b) = true := by
  unfold strMax
  by_cases h : strLe a b = true
  · simp [h]
  · simp [h, strLe_refl]

theorem le_strMax_right (a b : String) : strLe b (strMax a b) = true := by
  unfold strMax
  by_cases h : strLe a b = true
  · simp [h, strLe_refl]
  · rcases strLe_total a b with h1 | h1
    · exact absurd h1 h
    · simp [h, h1]

theorem foldl_strMax_mem (xs : List String) (x : String) :
    xs.foldl strMax x = x ∨ xs.foldl strMax x ∈ xs := by
  induction xs generalizing x with
  | nil => left; rfl
  | cons y ys ih =>
    simp only [List.foldl_cons, List.mem_cons]
    rcases ih (strMax x y) with h | h
    · rcases strMax_cases x y with h1 | h1
      · left; rw [h, h1]
      · right; left; rw [h, h1]
    · right; right; exact h

theorem le_foldl_strMax_init (xs : List String) (x : String) :
    strLe x (xs.foldl strMax x) = true := by
  induction xs generalizing x with
  | nil => exact strLe_refl x
  | cons y ys ih =>
    simp only [List.foldl_cons]
    exact strLe_trans (le_strMax_left x y) (ih (strMax x y))

theorem le_foldl_strMax_mem (xs : List String) (x a : String) (ha : a ∈ xs) :
    strLe a (xs.foldl strMax x) = true := by
  induction xs generalizing x with
  | nil => simp at ha
  | cons y ys ih =>
    simp only [List.foldl_cons]
    rcases List.mem_cons.mp ha with rfl | h
    · exact strLe_trans (le_strMax_right x a) (le_foldl_strMax_init ys (strMax x a))
    · exact ih (strMax x y) h

theorem lexMax?_mem {l : List String} {m : String} (h : lexMax? l = some m) : m ∈ l := by
  cases l with
  | nil => simp [lexMax?] at h
  | cons x xs =>
    simp only [lexMax?, Option.some_inj] at h
    subst h
    rcases foldl_strMax_mem xs x with h1 | h1
    · rw [h1]; exact List.mem_cons_self x xs
    · exact List.mem_cons_of_mem x h1

theorem lexMax?_le {l : List String} {m : String} (h : lexMax? l = some m) :
    ∀ a ∈ l, strLe a m = true := by
  cases l with
  | nil => simp [lexMax?] at h
  | cons x xs =>
    simp only [lexMax?, Option.some_inj] at h
    subst h
    intro a ha
    rcases List.mem_cons.mp ha with rfl | h1
    · exact le_foldl_strMax_init xs a
    · exact le_foldl_strMax_mem xs x a h1

theorem lexMax?_eq_some {l : List String} {m : String} (hm : m ∈ l)
    (hub : ∀ a ∈ l, strLe a m = true) : lexMax? l = some m := by
  cases hl : lexMax? l with
  | none =>
    cases l with
    | nil => simp at hm
    | cons x xs => simp [lexMax?] at hl
  | some m' =>
    have h1 : strLe m' m = true := hub m' (lexMax?_mem hl)
    have h2 : strLe m m' = true := lexMax?_le hl m hm
    rw [strLe_antisymm h2 h1]

theorem lexMax?_append_singleton (l : List String) (a : String) :
    lexMax? (l ++ [a]) = some (match lexMax? l with | none => a | some m => strMax m a) := by
  cases l with
  | nil => rfl
  | cons x xs => simp [lexMax?, List.foldl_append]

theorem lexMax?_eq_none {l : List String} (h : lexMax? l = none) : l = [] := by
  cases l with
  | nil => rfl
  | cons x xs => simp [lexMax?] at h

/-!  Monotonicity of the assigned ids (claim C1) and the shape of
get_next_query_id (claim C5). -/

theorem queryIds_append (s : Store) (r : QueryRow) :
    queryIds (s ++ [r]) = queryIds s ++ [r.query_id] := by
  simp [queryIds]

theorem incSuffix_shape (x : Option Int) : ∃ k : Int, incSuffix x = "Q" ++ format04 k := by
  cases x with
  | none => exact ⟨1, rfl⟩
  | some num => exact ⟨num + 1, rfl⟩

theorem insert_ok_facts (m mb hd dsc : String) (im : Option (List UInt8)) (t : String)
    (s : Store) (qid : String) (s' : Store)
    (h : insert_query m mb hd dsc im t s = .ok (qid, s')) :
    qid = get_next_query_id s ∧ qid ∉ queryIds s ∧
      s' = s ++ [{
        query_id := get_next_query_id s, mail_id := some m,
        mobile_number := some mb, query_heading := some hd,
        query_description := some dsc, status := some "Opened",
        query_created_time := some t, query_closed_time := none, image := im }] := by
  simp only [insert_query] at h
  split at h
  · exact absurd h (by simp)
  · rename_i hnm
    rw [Except.ok.injEq, Prod.mk.injEq] at h
    obtain ⟨h1, h2⟩ := h
    exact ⟨h1.symm, h1 ▸ hnm, h2.symm⟩

theorem insert_step (m mb hd dsc : String) (im : Option (List UInt8)) (t : String)
    (s₀ : Store) (qid : String) (s : Store)
    (h : insert_query m mb hd dsc im t s₀ = .ok (qid, s)) :
    pyIntParse (pyTail qid) = some (numericSuffix qid) ∧ qid ∈ queryIds s ∧
      (get_next_query_id s = "Q" ++ format04 (numericSuffix qid + 1) ∨
       get_next_query_id s = qid) := by
  obtain ⟨hqid, hnm, hs⟩ := insert_ok_facts m mb hd dsc im t s₀ qid s h
  have hids : queryIds s = queryIds s₀ ++ [qid] := by
    rw [hs, queryIds_append, hqid]
  obtain ⟨k, hk⟩ : ∃ k : Int, qid = "Q" ++ format04 k := by
    cases hm : lexMax? (queryIds s₀) with
    | none =>
      refine ⟨1, ?_⟩
      rw [hqid]
      simp [get_next_query_id, hm, nextFromLast]
    | some last =>
      obtain ⟨k, hk⟩ := incSuffix_shape (pyIntParse (pyTail last))
      refine ⟨k, ?_⟩
      rw [hqid]
      simp [get_next_query_id, hm, nextFromLast, hk]
  have hparse : pyIntParse (pyTail qid) = some k := by
    rw [hk]; exact pyIntParse_Qformat04 k
  have hsuf : numericSuffix qid = k := by rw [hk]; exact numericSuffix_Qformat04 k
  have hmem : qid ∈ queryIds s := by rw [hids]; simp
  refine ⟨hsuf ▸ hparse, hmem, ?_⟩
  cases hm : lexMax? (queryIds s₀) with
  | none =>
    have hempty : queryIds s₀ = [] := lexMax?_eq_none hm
    have hmax : lexMax? (queryIds s) = some qid := by
      rw [hids, hempty]
      rfl
    left
    rw [hsuf]
    simp [get_next_query_id, hmax, nextFromLast, hparse, incSuffix]
  | some last =>
    have hmax : lexMax? (queryIds s) = some (strMax last qid) := by
      rw [hids, lexMax?_append_singleton, hm]
    by_cases hle : strLe last qid = true
    · have hmq : strMax last qid = qid := by simp [strMax, hle]
      left
      rw [hsuf]
      simp [get_next_query_id, hmax, hmq, nextFromLast, hparse, incSuffix]
    · have hmq : strMax last qid = last := by simp [strMax, hle]
      right
      have : get_next_query_id s = nextFromLast (some last) := by
        simp [get_next_query_id, hmax, hmq]
      rw [this, hqid]
      simp [get_next_query_id, hm, nextFromLast]

theorem runInserts_head_gt (qs : List InsertReq) (s : Store) (qid : String)
    (hp : pyIntParse (pyTail qid) = some (numericSuffix qid))
    (hmem : qid ∈ queryIds s)
    (hnext : get_next_query_id s = "Q" ++ format04 (numericSuffix qid + 1) ∨
             get_next_query_id s = qid) :
    ∀ y ∈ (runInserts qs s).1.head?, numericSuffix qid < numericSuffix y := by
  induction qs with
  | nil => intro y hy; simp [runInserts] at hy
  | cons q qs ih =>
    intro y hy
    cases hins : insert_query q.mail_id q.mobile_number q.query_heading
        q.query_description q.image_bytes q.now s with
    | error e =>
      rw [runInserts] at hy
      simp only [hins] at hy
      exact ih y hy
    | ok p =>
      obtain ⟨qid2, s₂⟩ := p
      rw [runInserts] at hy
      simp only [hins, List.head?_cons, Option.mem_some_iff] at hy
      subst hy
      obtain ⟨hq2, hnm2, -⟩ := insert_ok_facts _ _ _ _ _ _ _ _ _ hins
      rcases hnext with hinc | hcol
      · rw [hq2, hinc, numericSuffix_Qformat04]
        omega
      · rw [hq2, hcol] at hnm2
        exact absurd hmem hnm2

theorem runInserts_chain (qs : List InsertReq) (s : Store) :
    List.Chain' (fun a b => numericSuffix a < numericSuffix b) (runInserts qs s).1 := by
  induction qs generalizing s with
  | nil => simp [runInserts]
  | cons q qs ih =>
    rw [runInserts]
    cases hins : insert_query q.mail_id q.mobile_number q.query_heading
        q.query_description q.image_bytes q.now s with
    | error e =>
      simp only [hins]
      exact ih s
    | ok p =>
      obtain ⟨qid, s₂⟩ := p
      simp only [hins]
      rw [List.chain'_cons']
      obtain ⟨hp, hmem, hnext⟩ := insert_step _ _ _ _ _ _ _ _ _ hins
      exact ⟨runInserts_head_gt qs s₂ qid hp hmem hnext, ih s₂⟩

theorem Qformat04_one : "Q" ++ format04 1 = "Q0001" := by decide

example : get_next_query_id [] = "Q0001" := by decide

example : get_next_query_id [sampleOpened] = "Q0002" := by decide

example : numericSuffix "Q0001" = 1 := by decide

/-- C1: along any sequence of insert_query calls from any store state, the
returned query_ids are pairwise distinct and strictly increasing in the
integer parsed after the leading Q. -/
theorem insert_query_ids_strictly_increasing (qs : List InsertReq) (s : Store) :
    List.Pairwise (fun a b => a ≠ b ∧ numericSuffix a < numericSuffix b)
      (runInserts qs s).1 := by
  have hch := runInserts_chain qs s
  haveI : IsTrans String (fun a b => numericSuffix a < numericSuffix b) :=
    ⟨fun _ _ _ h1 h2 => lt_trans h1 h2⟩
  have hpw := List.chain'_iff_pairwise.mp hch
  exact hpw.imp (fun h => ⟨fun e => by subst e; exact lt_irrefl _ h, h⟩)

/-- C5: get_next_query_id returns Q0001 on an empty table, and otherwise
takes the greatest stored id under the binary collation, parses the suffix
after the leading character, increments and zero-pads it, falling back to
Q0001 when the suffix does not parse as an integer. -/
theorem get_next_query_id_spec (s : Store) :
    (s = [] → get_next_query_id s = "Q0001") ∧
    (∀ m, m ∈ queryIds s → (∀ i ∈ queryIds s, strLe i m = true) →
      get_next_query_id s =
        match pyIntParse (pyTail m) with
        | some num => "Q" ++ format04 (num + 1)
        | none => "Q0001") := by
  constructor
  · rintro rfl
    decide
  · intro m hm hub
    have hmax : lexMax? (queryIds s) = some m := lexMax?_eq_some hm hub
    simp only [get_next_query_id, hmax, nextFromLast]
    cases hp : pyIntParse (pyTail m) with
    | none => simpa [incSuffix] using Qformat04_one
    | some num => simp [incSuffix]

/-- Witness for C5 on concrete stores: the empty table and a table whose
greatest id is Q0001. -/
theorem get_next_query_id_spec_witness :
    get_next_query_id [] = "Q0001" ∧
    (get_next_query_id [sampleOpened] =
      match pyIntParse (pyTail "Q0001") with
      | some num => "Q" ++ format04 (num + 1)
      | none => "Q0001") :=
  ⟨(get_next_query_id_spec []).1 rfl,
   (get_next_query_id_spec [sampleOpened]).2 "Q0001" (by decide) (by decide)⟩

/-- C3: authenticate succeeds exactly on the two hardcoded triples, under
case-sensitive equality and independently of any stored users; in particular
the spec's three sample calls and unknown roles behave as stated. -/
theorem authenticate_spec :
    (∀ role username password,
      authenticate_by_role_and_username role username password = true ↔
        ((role = "Support" ∧ username = "support" ∧ password = "support123") ∨
         (role = "Client" ∧ username = "client" ∧ password = "client123"))) ∧
    authenticate_by_role_and_username "Support" "support" "support123" = true ∧
    authenticate_by_role_and_username "Support" "client" "client123" = false ∧
    authenticate_by_role_and_username "Client" "support" "support123" = false ∧
    (∀ username password,
      authenticate_by_role_and_username "Admin" username password = false) := by
  refine ⟨?_, by decide, by decide, by decide, ?_⟩
  · intro role username password
    unfold authenticate_by_role_and_username
    by_cases h1 : role = "Support"
    · subst h1
      simp
    · by_cases h2 : role = "Client"
      · subst h2
        simp [h1]
      · simp [h1, h2]
  · intro username password
    unfold authenticate_by_role_and_username
    simp

/-- C8: closing a query_id that matches no row raises nothing and leaves the
table unchanged. -/
theorem close_query_missing_id_noop (query_id closed_time : String) (s : Store)
    (h : query_id ∉ queryIds s) : close_query query_id closed_time s = s := by
  induction s with
  | nil => rfl
  | cons r rs ih =>
    have h1 : r.query_id ≠ query_id := by
      intro e
      exact h (by simp [queryIds, e])
    have h2 : query_id ∉ queryIds rs := by
      intro hmem
      apply h
      simp only [queryIds, List.map_cons, List.mem_cons]
      exact Or.inr hmem
    simp only [close_query, List.map_cons, if_neg h1]
    have := ih h2
    simp only [close_query] at this
    rw [this]

/-- Witness for C8: closing the absent id Q0009 on a one-row table. -/
theorem close_query_missing_id_noop_witness :
    "Q0009" ∉ queryIds [sampleOpened] ∧
    close_query "Q0009" "2024-01-03 12:00:00" [sampleOpened] = [sampleOpened] :=
  ⟨by decide, close_query_missing_id_noop _ _ _ (by decide)⟩

/-- C9: get_query_image yields none exactly when no row matches the id or
the matching row's image column is NULL, and yields stored bytes exactly
when the matching row holds them — so absence of a row and absence of an
attachment are indistinguishable from the result. -/
theorem get_query_image_spec (query_id : String) (s : Store) :
    (get_query_image query_id s = none ↔
      (s.find? (fun r => r.query_id == query_id) = none ∨
       ∃ r, s.find? (fun q => q.query_id == query_id) = some r ∧ r.image = none)) ∧
    (∀ b, get_query_image query_id s = some b ↔
      ∃ r, s.find? (fun q => q.query_id == query_id) = some r ∧ r.image = some b) := by
  unfold get_query_image
  cases h : s.find? (fun r => r.query_id == query_id) with
  | none => simp [h]
  | some r =>
    cases hi : r.image with
    | none => simp [h, hi]
    | some b => simp [h, hi]

/-- C2 counterexample: a second close at a later clock instant is not a
no-op — it overwrites the closed time of the already-Closed row. -/
theorem close_query_reclose_not_noop :
    sampleClosed.status = some "Closed" ∧
    close_query "Q0002" "2024-01-05 12:00:00" [sampleClosed] ≠ [sampleClosed] ∧
    close_query "Q0002" "2024-01-05 12:00:00" [sampleClosed] =
      [{ sampleClosed with query_closed_time := some "2024-01-05 12:00:00" }] := by
  refine ⟨rfl, by decide, by decide⟩

/-- C2 amended: re-closing an already-Closed query leaves every field except
the closed time unchanged (the status simply stays Closed) but overwrites the
closed time with the later call's clock value, so a repeated close is
absorbed by the last one and is a no-op only at an equal timestamp. -/
theorem close_query_absorb (query_id t₁ t₂ : String) (s : Store) :
    close_query query_id t₂ (close_query query_id t₁ s) = close_query query_id t₂ s := by
  unfold close_query
  rw [List.map_map]
  apply List.map_congr_left
  intro r _
  by_cases h : r.query_id = query_id
  · simp [h]
  · simp [h]

/-!  The modelled ORDER BY comparator and the sort it induces. -/

theorem optStrLe_total (x y : Option String) : optStrLe x y = true ∨ optStrLe y x = true := by
  cases x with
  | none => left; rfl
  | some a =>
    cases y with
    | none => right; rfl
    | some b => simpa [optStrLe] using strLe_total a b

theorem optStrLe_trans {x y z : Option String} (h1 : optStrLe x y = true)
    (h2 : optStrLe y z = true) : optStrLe x z = true := by
  cases x with
  | none => rfl
  | some a =>
    cases y with
    | none => simp [optStrLe] at h1
    | some b =>
      cases z with
      | none => simp [optStrLe] at h2
      | some c =>
        simp only [optStrLe] at h1 h2 ⊢
        exact strLe_trans h1 h2

theorem createdDescLe_total (a b : FetchedRow) :
    createdDescLe a b = true ∨ createdDescLe b a = true :=
  (optStrLe_total b.query_created_time a.query_created_time).imp id id

theorem createdDescLe_trans {a b c : FetchedRow} (h1 : createdDescLe a b = true)
    (h2 : createdDescLe b c = true) : createdDescLe a c = true :=
  optStrLe_trans h2 h1

theorem insertByCreatedDesc_perm (r : FetchedRow) (l : List FetchedRow) :
    (insertByCreatedDesc r l).Perm (r :: l) := by
  induction l with
  | nil => exact List.Perm.refl _
  | cons x xs ih =>
    unfold insertByCreatedDesc
    by_cases h : createdDescLe r x = true
    · rw [if_pos h]
    · rw [if_neg h]
      exact (ih.cons x).trans (List.Perm.swap r x xs)

theorem sortByCreatedDesc_perm (l : List FetchedRow) : (sortByCreatedDesc l).Perm l := by
  induction l with
  | nil => exact List.Perm.refl _
  | cons x xs ih =>
    show (insertByCreatedDesc x (sortByCreatedDesc xs)).Perm (x :: xs)
    exact (insertByCreatedDesc_perm x _).trans (ih.cons x)

theorem insertByCreatedDesc_sorted (r : FetchedRow) (l : List FetchedRow)
    (h : List.Pairwise (fun a b => createdDescLe a b = true) l) :
    List.Pairwise (fun a b => createdDescLe a b = true) (insertByCreatedDesc r l) := by
  induction l with
  | nil => simp [insertByCreatedDesc]
  | cons x xs ih =>
    rw [List.pairwise_cons] at h
    obtain ⟨h1, h2⟩ := h
    unfold insertByCreatedDesc
    by_cases hle : createdDescLe r x = true
    · rw [if_pos hle]
      rw [List.pairwise_cons]
      refine ⟨?_, List.pairwise_cons.mpr ⟨h1, h2⟩⟩
      intro y hy
      rcases List.mem_cons.mp hy with rfl | hy'
      · exact hle
      · exact createdDescLe_trans hle (h1 y hy')
    · rw [if_neg hle]
      rw [List.pairwise_cons]
      refine ⟨?_, ih h2⟩
      intro y hy
      have hy2 : y = r ∨ y ∈ xs := by
        have := (insertByCreatedDesc_perm r xs).mem_iff.mp hy
        simpa using this
      rcases hy2 with rfl | hy'
      · rcases createdDescLe_total y x with h3 | h3
        · exact absurd h3 hle
        · exact h3
      · exact h1 y hy'

theorem sortByCreatedDesc_sorted (l : List FetchedRow) :
    List.Pairwise (fun a b => createdDescLe a b = true) (sortByCreatedDesc l) := by
  induction l with
  | nil => simp [sortByCreatedDesc]
  | cons x xs ih => exact insertByCreatedDesc_sorted x _ ih

/-- C6: fetch_queries returns a permutation of exactly the selected rows —
all of them when the filter is absent or lowercases to the all sentinel,
otherwise precisely the rows whose status equals the filter value — and the
result is ordered by created time descending (NULL times last). -/
theorem fetch_queries_spec (status : Option String) (s : Store) :
    (fetch_queries status s).Perm
      ((match status with
        | none => s
        | some st =>
          if pyLower st = "all" then s
          else s.filter (fun r => r.status == some st)).map toFetched) ∧
    List.Pairwise (fun a b => createdDescLe a b = true) (fetch_queries status s) :=
  ⟨sortByCreatedDesc_perm _, sortByCreatedDesc_sorted _⟩

/-- C10: the status filter is matched case-sensitively even though the all
sentinel is case-insensitive: on a store whose rows are all Closed, the
filter value closed in lower case selects nothing, while ALL in capitals
returns every row. -/
theorem fetch_queries_case_sensitive (s : Store)
    (h : ∀ r ∈ s, r.status = some "Closed") :
    fetch_queries (some "closed") s = [] ∧
    (fetch_queries (some "ALL") s).Perm (s.map toFetched) := by
  constructor
  · show sortByCreatedDesc (List.map toFetched
        (if pyLower "closed" = "all" then s
         else List.filter (fun r => r.status == some "closed") s)) = []
    rw [if_neg (by decide : ¬ pyLower "closed" = "all")]
    have hnil : s.filter (fun r => r.status == some "closed") = [] := by
      rw [List.filter_eq_nil_iff]
      intro r hr
      rw [h r hr]
      decide
    rw [hnil]
    rfl
  · show (sortByCreatedDesc (List.map toFetched
        (if pyLower "ALL" = "all" then s
         else List.filter (fun r => r.status == some "ALL") s))).Perm (List.map toFetched s)
    rw [if_pos (by decide : pyLower "ALL" = "all")]
    exact sortByCreatedDesc_perm _

/-- Witness for C10 on a one-row all-Closed store. -/
theorem fetch_queries_case_sensitive_witness :
    (∀ r ∈ [sampleClosed], r.status = some "Closed") ∧
    fetch_queries (some "closed") [sampleClosed] = [] ∧
    (fetch_queries (some "ALL") [sampleClosed]).Perm ([sampleClosed].map toFetched) :=
  ⟨by decide, (fetch_queries_case_sensitive [sampleClosed] (by decide)).1,
   (fetch_queries_case_sensitive [sampleClosed] (by decide)).2⟩

/-!  The CSV bulk import. -/

theorem find?_append_left {p : QueryRow → Bool} {l₁ : Store} {r : QueryRow}
    (h : l₁.find? p = some r) (l₂ : Store) : (l₁ ++ l₂).find? p = some r := by
  rw [List.find?_append, h]
  rfl

theorem importRows_preserves_find? (records : List CsvRow) (s : Store) (qid : String)
    (old : QueryRow) (h : s.find? (fun r => r.query_id == qid) = some old) :
    (importRows records s).find? (fun r => r.query_id == qid) = some old := by
  induction records generalizing s with
  | nil => exact h
  | cons r rs ih =>
    unfold importRows
    by_cases hmem : r.query_id ∈ queryIds s
    · rw [if_pos hmem]
      exact ih s h
    · rw [if_neg hmem]
      exact ih _ (find?_append_left h _)

theorem queryIds_importRows_mono (records : List CsvRow) (s : Store) (qid : String)
    (h : qid ∈ queryIds s) : qid ∈ queryIds (importRows records s) := by
  induction records generalizing s with
  | nil => exact h
  | cons r rs ih =>
    unfold importRows
    by_cases hmem : r.query_id ∈ queryIds s
    · rw [if_pos hmem]
      exact ih s h
    · rw [if_neg hmem]
      apply ih
      rw [queryIds_append]
      exact List.mem_append_left _ h

theorem importRows_inserts_fresh (records : List CsvRow) (s : Store) :
    ∀ r ∈ records, r.query_id ∉ queryIds s →
      r.query_id ∈ queryIds (importRows records s) := by
  induction records generalizing s with
  | nil => intro r hr; simp at hr
  | cons r0 rs ih =>
    intro r hr hfresh
    unfold importRows
    rcases List.mem_cons.mp hr with rfl | hr'
    · rw [if_neg hfresh]
      apply queryIds_importRows_mono
      rw [queryIds_append]
      exact List.mem_append_right _ (by simp [csvToRow])
    · by_cases hmem : r0.query_id ∈ queryIds s
      · rw [if_pos hmem]
        exact ih s r hr' hfresh
      · rw [if_neg hmem]
        by_cases h2 : r.query_id ∈ queryIds (s ++ [csvToRow r0])
        · exact queryIds_importRows_mono rs _ _ h2
        · exact ih _ r hr' h2

/-- C7: a missing source file raises FileNotFoundError before anything is
written; with the file present the call is exactly the OR IGNORE row loop,
under which an id already stored keeps its original row (the record is
skipped, nothing raises) while every record with a fresh id ends up
present. -/
theorem import_csv_spec :
    (∀ records s, import_csv false records s = .error .fileNotFoundError) ∧
    (∀ records s, import_csv true records s = .ok (importRows records s)) ∧
    (∀ records s qid old, s.find? (fun r => r.query_id == qid) = some old →
      (importRows records s).find? (fun r => r.query_id == qid) = some old) ∧
    (∀ records s r, r ∈ records → r.query_id ∉ queryIds s →
      r.query_id ∈ queryIds (importRows records s)) :=
  ⟨fun _ _ => rfl, fun _ _ => rfl,
   fun records s qid old h => importRows_preserves_find? records s qid old h,
   fun records s r hr hf => importRows_inserts_fresh records s r hr hf⟩

/-- Witness for C7: importing one already-present and one fresh record over a
one-row store. -/
theorem import_csv_spec_witness :
    ([sampleOpened].find? (fun r => r.query_id == "Q0001") = some sampleOpened) ∧
    (importRows [goodCsvRow] [sampleOpened]).find? (fun r => r.query_id == "Q0001")
      = some sampleOpened ∧
    (goodCsvRow ∈ [goodCsvRow] ∧ "Q0101" ∉ queryIds [sampleOpened]) ∧
    "Q0101" ∈ queryIds (importRows [goodCsvRow] [sampleOpened]) :=
  ⟨by decide,
   import_csv_spec.2.2.1 [goodCsvRow] [sampleOpened] "Q0001" sampleOpened (by decide),
   ⟨by decide, by decide⟩,
   import_csv_spec.2.2.2 [goodCsvRow] [sampleOpened] goodCsvRow (by decide) (by decide)⟩

/-!  The closed-time invariant (claim C4). -/

theorem closedTimeInv_append (s : Store) (r : QueryRow) (hs : ClosedTimeInv s)
    (hr : r.query_closed_time.isSome ↔ r.status = some "Closed") :
    ClosedTimeInv (s ++ [r]) := by
  intro x hx
  rcases List.mem_append.mp hx with h | h
  · exact hs x h
  · rw [List.mem_singleton.mp h]
    exact hr

theorem closedTimeInv_importRows (records : List CsvRow) (s : Store)
    (hs : ClosedTimeInv s)
    (hrec : ∀ r ∈ records, r.query_closed_time.isSome ↔ r.status = some "Closed") :
    ClosedTimeInv (importRows records s) := by
  induction records generalizing s with
  | nil => exact hs
  | cons r rs ih =>
    unfold importRows
    by_cases hmem : r.query_id ∈ queryIds s
    · rw [if_pos hmem]
      exact ih s hs (fun x hx => hrec x (List.mem_cons_of_mem r hx))
    · rw [if_neg hmem]
      refine ih _ ?_ (fun x hx => hrec x (List.mem_cons_of_mem r hx))
      exact closedTimeInv_append s (csvToRow r) hs (hrec r (List.mem_cons_self r rs))

/-- C4 counterexample: importing a record whose status is Opened while its
closure date is set produces a store that violates the invariant, so
bulk_import does not preserve it for arbitrary input. -/
theorem import_csv_breaks_closed_time_inv :
    ClosedTimeInv [] ∧
    import_csv true [badCsvRow] [] = .ok [csvToRow badCsvRow] ∧
    ¬ ClosedTimeInv [csvToRow badCsvRow] :=
  ⟨by simp [ClosedTimeInv], rfl, by decide⟩

/-- C4 amended: insert_query and close_query preserve the invariant that the
closed time is non-null exactly on Closed rows; bulk_import preserves it
only under the extra assumption that every imported record itself satisfies
it, since the code never checks the records. -/
theorem closed_time_inv_preservation :
    (∀ m mb hd dsc im t s qid s', insert_query m mb hd dsc im t s = .ok (qid, s') →
      ClosedTimeInv s → ClosedTimeInv s') ∧
    (∀ qid t s, ClosedTimeInv s → ClosedTimeInv (close_query qid t s)) ∧
    (∀ records s s', import_csv true records s = .ok s' → ClosedTimeInv s →
      (∀ r ∈ records, r.query_closed_time.isSome ↔ r.status = some "Closed") →
      ClosedTimeInv s') := by
  refine ⟨?_, ?_, ?_⟩
  · intro m mb hd dsc im t s qid s' h hs
    obtain ⟨-, -, hset⟩ := insert_ok_facts m mb hd dsc im t s qid s' h
    rw [hset]
    exact closedTimeInv_append s _ hs (by simp)
  · intro qid t s hs x hx
    obtain ⟨r, hr, hrx⟩ := List.mem_map.mp hx
    by_cases h : r.query_id = qid
    · rw [← hrx]
      simp [h]
    · rw [← hrx]
      simp only [if_neg h]
      exact hs r hr
  · intro records s s' h hs hrec
    have hs' : s' = importRows records s := by
      simpa [import_csv] using h.symm
    rw [hs']
    exact closedTimeInv_importRows records s hs hrec

/-- Witness for C4 on concrete data: one insert, one close and one clean
import, each preserving the invariant. -/
theorem closed_time_inv_preservation_witness :
    ClosedTimeInv [sampleClosed] ∧
    insert_query "a@x.com" "555" "H" "D" none "2024-01-01 10:00:00" [sampleClosed]
      = .ok ("Q0003", [sampleClosed, {
        query_id := "Q0003", mail_id := some "a@x.com", mobile_number := some "555",
        query_heading := some "H", query_description := some "D",
        status := some "Opened", query_created_time := some "2024-01-01 10:00:00",
        query_closed_time := none, image := none }]) ∧
    ClosedTimeInv [sampleClosed, {
        query_id := "Q0003", mail_id := some "a@x.com", mobile_number := some "555",
        query_heading := some "H", query_description := some "D",
        status := some "Opened", query_created_time := some "2024-01-01 10:00:00",
        query_closed_time := none, image := none }] ∧
    ClosedTimeInv (close_query "Q0002" "2024-01-06 10:00:00" [sampleClosed]) ∧
    ClosedTimeInv (importRows [goodCsvRow] [sampleClosed]) := by
  refine ⟨by decide, rfl, ?_, ?_, ?_⟩
  · exact closed_time_inv_preservation.1 "a@x.com" "555" "H" "D" none
      "2024-01-01 10:00:00" [sampleClosed] "Q0003" _ rfl (by decide)
  · exact closed_time_inv_preservation.2.1 "Q0002" "2024-01-06 10:00:00" [sampleClosed]
      (by decide)
  · exact closed_time_inv_preservation.2.2 [goodCsvRow] [sampleClosed] _ rfl
      (by decide) (by decide)

end CQMS
